import Mathlib

/-!
Verification of the shell tab-completion engine in
`cmd/tailscale/cli/ffcomplete/complete.go` (function `Complete` and its
helpers `cutDash`, `isBoolFlag`, `Fixed`, plus the flag/args completer
registries).  The engine is shallowly embedded below:

* Go strings are modelled as `List Char` (`Str`).
* A `flag.Flag` is a `Flag` record: its name, whether its value implements
  `IsBoolFlag` (the data model's `isBoolean`), and the entry it has (if any)
  in the `completeFlags` registry.  Registries in the Go code are
  identity-keyed side tables; attaching the registered completer to the
  flag/command record models exactly that.
* An `ffcli.Command` is a `Cmd`: name, flag set (ordered, as registered),
  subcommands, and its entry (if any) in the `completeCmds` registry.
* `ff.Parse` with no options delegates to the standard `flag.FlagSet.Parse`;
  `parseFS` is a faithful model of that parse loop (`parseOne`), returning
  the set of flag names given a value and the residual arguments, or an
  error.  Error message texts are abridged; only their presence matters.
* A completer (`CompleteFunc`) returns words and a directive, returns an
  error, or panics; `CompRes` has a constructor for each outcome.
* `Complete` itself is `completeImpl` (the function body; its result
  `COutcome` distinguishes a normal return from an unwound panic carrying
  the named return values `words`/`dir` at the moment of the panic) wrapped
  by `complete`, which models the `defer`red `recover` block at the top of
  `Complete`.
* Directives are `Nat` bit masks (NoFileComp = 4, as in the Go source).
-/

namespace FFC

/-- Go strings, modelled as lists of characters. -/
abbrev Str := List Char

/-- The literal token `--`. -/
def ddS : Str := ['-', '-']

/-- Result of one call to a registered completer (Go `CompleteFunc`):
normal return of words and a directive, an error return, or a panic. -/
inductive CompRes where
  | ok : List Str → Nat → CompRes
  | err : Str → CompRes
  | panic : Str → CompRes

/-- One registered flag: name, `IsBoolFlag` capability, and its entry in the
`completeFlags` registry (none when no completer was registered for it). -/
structure Flag where
  name : Str
  isBool : Bool
  comp : Option (Str → CompRes)

/-- One `ffcli.Command` node: name, flag set in registration order,
subcommands in registration order, and its entry in the `completeCmds`
registry. -/
inductive Cmd where
  | mk : Str → List Flag → List Cmd → Option (Str → CompRes) → Cmd

def Cmd.name : Cmd → Str
  | .mk n _ _ _ => n

def Cmd.flags : Cmd → List Flag
  | .mk _ f _ _ => f

def Cmd.subs : Cmd → List Cmd
  | .mk _ _ s _ => s

def Cmd.argComp : Cmd → Option (Str → CompRes)
  | .mk _ _ _ c => c

/-- Model of Go `ffcomplete.cutDash`: strip up to two leading dashes. -/
def cutDash (s : Str) : Str × Str :=
  match s with
  | [] => ([], [])
  | c :: rest =>
    if c = '-' then
      match rest with
      | [] => (['-'], [])
      | c2 :: rest2 => if c2 = '-' then (['-', '-'], rest2) else (['-'], c2 :: rest2)
    else ([], c :: rest)

/-- Model of Go `strings.Cut(s, "=")`: split at the first `=`, or `none`
when `s` contains no `=`. -/
def cutEq : Str → Option (Str × Str)
  | [] => none
  | c :: cs =>
    if c = '=' then some ([], cs)
    else
      match cutEq cs with
      | some (a, b) => some (c :: a, b)
      | none => none

/-- ASCII model of Go `strings.EqualFold` (case-insensitive equality); the
command names exercised by this program are ASCII. -/
def eqFold (a b : Str) : Bool :=
  a.map Char.toLower == b.map Char.toLower

/-- Model of Go `strconv.ParseBool`. -/
def parseBool (s : Str) : Option Bool :=
  if s = ['1'] ∨ s = ['t'] ∨ s = ['T'] ∨ s = "TRUE".toList ∨ s = "true".toList ∨ s = "True".toList then
    some true
  else if s = ['0'] ∨ s = ['f'] ∨ s = ['F'] ∨ s = "FALSE".toList ∨ s = "false".toList ∨ s = "False".toList then
    some false
  else none

/-- Model of `flag.FlagSet.Lookup`: find the registered flag named `nm`. -/
def lookupFlag (flags : List Flag) (nm : Str) : Option Flag :=
  flags.find? (fun f => f.name == nm)

def flagParsingMsg : Str := " flag parsing: error".toList

def badSyntaxMsg : Str := "bad flag syntax".toList

def helpMsg : Str := "flag: help requested".toList

def notDefinedMsg : Str := "flag provided but not defined".toList

def badBoolMsg : Str := "invalid boolean value".toList

def needsArgMsg : Str := "flag needs an argument".toList

def compErrMsg (m : Str) : Str := "completing: ".toList ++ m

def panicMsg (m : Str) : Str := "panic: ".toList ++ m

/-- Model of `flag.FlagSet.Parse` (which `ff.Parse` delegates to when a
command carries no parser options, as here): repeatedly consume one flag
token from the front of `args`.  Returns the names of the flags that were
given a value (the set `Visit` iterates, Go `hasBeenSet`) and the residual
non-flag arguments (`FlagSet.Args()`), or a parse error.  Registered flags
are boolean or string valued, per the data model; a string flag's `Set`
never fails. -/
def parseFS (flags : List Flag) (used : List Str) (args : List Str) :
    Except Str (List Str × List Str) :=
  match args with
  | [] => .ok (used, [])
  | s :: rest =>
    match s with
    | '-' :: c1 :: srest =>
      if c1 = '-' ∧ srest = [] then
        -- a bare "--" terminates flag parsing and is consumed
        .ok (used, rest)
      else
        let name := if c1 = '-' then srest else c1 :: srest
        if name = [] ∨ name.head? = some '-' ∨ name.head? = some '=' then
          .error badSyntaxMsg
        else
          let nmv : Str × Option Str :=
            match cutEq name with
            | some (a, b) => (a, some b)
            | none => (name, none)
          match lookupFlag flags nmv.1 with
          | none =>
            if nmv.1 = ['h'] ∨ nmv.1 = "help".toList then .error helpMsg
            else .error notDefinedMsg
          | some f =>
            if f.isBool then
              match nmv.2 with
              | some v =>
                match parseBool v with
                | some _ => parseFS flags (nmv.1 :: used) rest
                | none => .error badBoolMsg
              | none => parseFS flags (nmv.1 :: used) rest
            else
              match nmv.2 with
              | some _ => parseFS flags (nmv.1 :: used) rest
              | none =>
                match rest with
                | _ :: rest2 => parseFS flags (nmv.1 :: used) rest2
                | [] => .error needsArgMsg
    | _ =>
      -- stop at the first token that is not `-x...`: "", "-", or a non-dash token
      .ok (used, s :: rest)

mutual

/-- Model of the `walk` loop of `Complete` (complete.go lines 154-178):
parse the current node's flags, stop when the residue is empty or a lone
`--`, otherwise descend into the first subcommand whose name matches the
first residual token case-insensitively.  Returns the resolved node, the
residual arguments, and the names of flags set at the resolved node. -/
def walk (cmd : Cmd) (args : List Str) : Except Str (Cmd × List Str × List Str) :=
  match cmd with
  | .mk n fl subs ac =>
    match parseFS fl [] args with
    | .error e => .error (n ++ flagParsingMsg ++ e)
    | .ok (used, rest) =>
      if rest = [] ∨ rest = [ddS] then .ok (.mk n fl subs ac, rest, used)
      else
        match rest with
        | [] => .ok (.mk n fl subs ac, [], used)
        | a0 :: rtail =>
          match walkSubs subs a0 rtail with
          | some r => r
          | none => .ok (.mk n fl subs ac, a0 :: rtail, used)

/-- The subcommand scan inside the `walk` loop: first case-insensitive
name match descends. -/
def walkSubs (subs : List Cmd) (a0 : Str) (rtail : List Str) :
    Option (Except Str (Cmd × List Str × List Str)) :=
  match subs with
  | [] => none
  | sub :: more =>
    if eqFold sub.name a0 then some (walk sub rtail) else walkSubs more a0 rtail

end

/-- Lexicographic byte-order comparison of names, as `sort.Strings` uses. -/
def strLe : Str → Str → Bool
  | [], _ => true
  | _ :: _, [] => false
  | a :: as, b :: bs =>
    if a.toNat < b.toNat then true
    else if b.toNat < a.toNat then false
    else strLe as bs

def insertSorted (f : Flag) : List Flag → List Flag
  | [] => [f]
  | g :: gs => if strLe f.name g.name then f :: g :: gs else g :: insertSorted f gs

/-- `flag.FlagSet.VisitAll` iterates flags sorted by name (Go `sortFlags`). -/
def sortFlags : List Flag → List Flag
  | [] => []
  | f :: fs => insertSorted f (sortFlags fs)

/-- The candidate spellings the boolean-value branch scans, truthy group
first, in source order (complete.go lines 207-210). -/
def truthyVals : List Str := ["true".toList, "TRUE".toList, "True".toList, ['1']]

def falsyVals : List Str := ["false".toList, "FALSE".toList, "False".toList, ['0']]

/-- The inner loop of the boolean-value branch: append the first candidate
of the group that has `p` as a prefix, then `break`. -/
def firstPrefixMatch (p : Str) : List Str → List Str
  | [] => []
  | v :: vs => if p.isPrefixOf v then [v] else firstPrefixMatch p vs

/-- Boolean flag value completion (complete.go lines 205-218). -/
def boolWords (p : Str) : List Str :=
  firstPrefixMatch p truthyVals ++ firstPrefixMatch p falsyVals

/-- The flag-name completion block of `Complete` (complete.go lines
224-247): for each flag in `VisitAll` order, skip names the partial name
is not a prefix of and names already set, and choose the dash prefix. -/
def flagNameWords (flags : List Flag) (used : List Str) (ca : Str) : List Str :=
  let cd := (cutDash ca).1
  let cf := (cutDash ca).2
  (sortFlags flags).filterMap (fun f =>
    if cf.isPrefixOf f.name then
      if used.contains f.name then none
      else
        let d := if (cd = [] ∨ cd = ['-']) ∧ cf = [] ∧ 1 < f.name.length then ['-', '-'] else cd
        some (d ++ f.name)
    else none)

/-- Outcome of running the body of `Complete`: a normal (possibly
erroneous) return, or a panic unwinding to the deferred `recover` with the
named results `words` and `dir` holding their values at the panic point. -/
inductive COutcome where
  | normal : List Str → Nat → Option Str → COutcome
  | panicked : List Str → Nat → Str → COutcome

/-- The `-flag=...` completion block (complete.go lines 188-221), reached
when the final token contains `=`: a registered completer takes precedence,
then boolean true/false completion; both flag-name and subcommand/argument
completion are suppressed afterwards. -/
def flagValueBranch (cmd : Cmd) (df p : Str) : COutcome :=
  match lookupFlag cmd.flags (cutDash df).2 with
  | none => .normal [] 0 none
  | some f =>
    match f.comp with
    | some comp =>
      match comp p with
      | .ok w d => .normal w d none
      | .err m => .normal [] 0 (some (compErrMsg m))
      | .panic m => .panicked [] 0 m
    | none =>
      if f.isBool then .normal (boolWords p) 0 none else .normal [] 0 none

/-- The `-flag...` and `sub...` completion blocks (complete.go lines
224-265): flag-name suggestions when flag completion is still enabled,
then subcommand-name suggestions and the node's registered argument
completer, whose directive overwrites the current one. -/
def namesAndArgsBranch (cmd : Cmd) (used : List Str) (ca : Str) (cf1 : Bool) : COutcome :=
  let flagWords := if cf1 then flagNameWords cmd.flags used ca else []
  let subWords := (cmd.subs.filter (fun sub => ca.isPrefixOf sub.name)).map (fun sub => sub.name)
  match cmd.argComp with
  | none => .normal (flagWords ++ subWords) 0 none
  | some comp =>
    match comp ca with
    | .ok w d => .normal (flagWords ++ subWords ++ w) d none
    | .err m => .normal [] 0 (some (compErrMsg m))
    | .panic m => .panicked (flagWords ++ subWords) 0 m

/-- Classification and generation after the walk: `completeFlag` is cleared
when a bare `--` remains (complete.go lines 179-181), then the final token
is classified by presence of `=`. -/
def afterWalk (cmd : Cmd) (used rest : List Str) (ca : Str) (cf0 : Bool) : COutcome :=
  let cf1 := cf0 && !(rest.getLast? == some ddS)
  match (if cf1 then cutEq ca else none) with
  | some (df, p) => flagValueBranch cmd df p
  | none => namesAndArgsBranch cmd used ca cf1

/-- Body of `Complete` (complete.go lines 139-266): normalize empty args to
one empty token, remember the final (in-progress) token and whether it
looks like a flag, replace it by `--`, walk the tree, then classify. -/
def completeImpl (root : Cmd) (args0 : List Str) : COutcome :=
  let args := if args0.isEmpty then [([] : Str)] else args0
  let ca := args.getLastD []
  let cf0 := ca.isEmpty || ca.head? == some '-'
  match walk root (args.dropLast ++ [ddS]) with
  | .error e => .normal [] 0 (some e)
  | .ok (cmd, rest, used) => afterWalk cmd used rest ca cf0

/-- `Complete` (complete.go line 127): the body guarded by the deferred
`recover` that converts a panic into an error on the named return `err`,
leaving the already-accumulated `words` and `dir` in place. -/
def complete (root : Cmd) (args : List Str) : List Str × Nat × Option Str :=
  match completeImpl root args with
  | .normal w d e => (w, d, e)
  | .panicked w d m => (w, d, some (panicMsg m))

/-- Final state of the caller's argument array when `Complete` returns:
`Complete` writes `--` over the final element in place (complete.go line
150); an empty slice is replaced by a freshly allocated one, leaving the
caller's empty array untouched. -/
def argsAfterComplete (args : List Str) : List Str :=
  if args.isEmpty then args else args.set (args.length - 1) ddS

/-! The reference command tree of spec §8: root `prog` with flags `-v`
(bool), `--root-bool` (bool), `--root-str` (string), and subcommand `debug`
with flags `--cpu-profile` (string), `--debug-bool` (bool) and `--enum`
(string, registered with a `Fixed` completer suggesting alpha/beta/charlie
with the NoFileComp directive). -/

/-- Model of `ffcomplete.Fixed("alpha","beta","charlie")`: prefix-filter
the fixed words, directive NoFileComp (= 4). -/
def enumComp : Str → CompRes := fun p =>
  .ok ((["alpha".toList, "beta".toList, "charlie".toList]).filter (fun w => p.isPrefixOf w)) 4

def fV : Flag := ⟨"v".toList, true, none⟩

def fRootBool : Flag := ⟨"root-bool".toList, true, none⟩

def fRootStr : Flag := ⟨"root-str".toList, false, none⟩

def fCpu : Flag := ⟨"cpu-profile".toList, false, none⟩

def fDebugBool : Flag := ⟨"debug-bool".toList, true, none⟩

def fEnum : Flag := ⟨"enum".toList, false, some enumComp⟩

def debugCmd : Cmd := .mk ("debug".toList) [fCpu, fDebugBool, fEnum] [] none

def progTree : Cmd := .mk ("prog".toList) [fV, fRootBool, fRootStr] [debugCmd] none

/-! Auxiliary trees exercising registered completers that succeed, fail and
panic, used to instantiate the error-path and custom-completer claims. -/

/-- A flag-value completer returning the fixed word X with directive 0. -/
def xComp : Str → CompRes := fun _ => .ok [("X".toList)] 0

def eFlag : Flag := ⟨['e'], false, some xComp⟩

/-- Root command carrying the single flag -e with completer `xComp`. -/
def ce5Tree : Cmd := .mk ("p5".toList) [eFlag] [] none

/-- An argument completer that panics. -/
def panicComp : Str → CompRes := fun _ => .panic ("boom".toList)

def subCmd6 : Cmd := .mk ("sub".toList) [] [] none

/-- Root command with subcommand `sub` and a panicking argument completer. -/
def panicTree : Cmd := .mk ("p6".toList) [] [subCmd6] (some panicComp)

/-- An argument completer that returns an error. -/
def errComp : Str → CompRes := fun _ => .err ("bad".toList)

/-- Root command whose argument completer returns an error. -/
def errTree : Cmd := .mk ("p6e".toList) [] [] (some errComp)

/-! Helper lemmas shared by the claim theorems. -/

theorem completeImpl_walk_ok (root : Cmd) (args : List Str) (cmd : Cmd) (rest used : List Str)
    (h0 : args ≠ [])
    (hw : walk root (args.dropLast ++ [ddS]) = .ok (cmd, rest, used)) :
    completeImpl root args =
      afterWalk cmd used rest (args.getLastD [])
        ((args.getLastD []).isEmpty || ((args.getLastD []).head? == some '-')) := by
  have hne : args.isEmpty = false := by
    cases args with
    | nil => exact absurd rfl h0
    | cons a as => rfl
  simp only [completeImpl, hne, Bool.false_eq_true, if_false, hw]

theorem afterWalk_eq_flagValue (cmd : Cmd) (used rest : List Str) (ca df p : Str)
    (hnd : (rest.getLast? == some ddS) = false)
    (hcut : cutEq ca = some (df, p)) :
    afterWalk cmd used rest ca true = flagValueBranch cmd df p := by
  simp only [afterWalk, hnd, Bool.not_false, Bool.and_self, if_true, hcut]

theorem flagValueBranch_boolFlag (cmd : Cmd) (df p : Str) (f : Flag)
    (hl : lookupFlag cmd.flags (cutDash df).2 = some f)
    (hcomp : f.comp = none) (hb : f.isBool = true) :
    flagValueBranch cmd df p = .normal (boolWords p) 0 none := by
  simp only [flagValueBranch, hl, hcomp, hb, if_true]

theorem flagValueBranch_customComp (cmd : Cmd) (df p : Str) (f : Flag) (c : Str → CompRes)
    (w : List Str) (d : Nat)
    (hl : lookupFlag cmd.flags (cutDash df).2 = some f)
    (hcomp : f.comp = some c) (hres : c p = .ok w d) :
    flagValueBranch cmd df p = .normal w d none := by
  simp only [flagValueBranch, hl, hcomp, hres]

theorem flagValueBranch_noFlag (cmd : Cmd) (df p : Str)
    (hl : lookupFlag cmd.flags (cutDash df).2 = none) :
    flagValueBranch cmd df p = .normal [] 0 none := by
  simp only [flagValueBranch, hl]

theorem firstPrefixMatch_eq_find (p : Str) (l : List Str) :
    firstPrefixMatch p l = (l.find? (fun v => p.isPrefixOf v)).toList := by
  induction l with
  | nil => rfl
  | cons v vs ih =>
    by_cases h : p.isPrefixOf v
    · simp [firstPrefixMatch, List.find?_cons_of_pos, h]
    · simp [firstPrefixMatch, List.find?_cons_of_neg, h, ih]

theorem mem_insertSorted {g f : Flag} {l : List Flag} (h : g ∈ insertSorted f l) :
    g = f ∨ g ∈ l := by
  induction l with
  | nil => simpa [insertSorted] using h
  | cons x xs ih =>
    unfold insertSorted at h
    split at h
    · exact List.mem_cons.mp h
    · rcases List.mem_cons.mp h with h1 | h1
      · exact Or.inr (List.mem_cons.mpr (Or.inl h1))
      · rcases ih h1 with h2 | h2
        · exact Or.inl h2
        · exact Or.inr (List.mem_cons.mpr (Or.inr h2))

theorem mem_sortFlags {g : Flag} {l : List Flag} (h : g ∈ sortFlags l) : g ∈ l := by
  induction l with
  | nil => simpa [sortFlags] using h
  | cons f fs ih =>
    unfold sortFlags at h
    rcases mem_insertSorted h with h1 | h1
    · exact List.mem_cons.mpr (Or.inl h1)
    · exact List.mem_cons.mpr (Or.inr (ih h1))

theorem cutDash_fst_cases (s : Str) :
    (cutDash s).1 = [] ∨ (cutDash s).1 = ['-'] ∨ (cutDash s).1 = ['-', '-'] := by
  unfold cutDash
  rcases s with _ | ⟨c, rest⟩
  · simp
  · by_cases hc : c = '-'
    · rcases rest with _ | ⟨c2, rest2⟩
      · simp [hc]
      · by_cases hc2 : c2 = '-' <;> simp [hc, hc2]
    · simp [hc]

theorem cutDash_snd_append (d nm : Str)
    (hd : d = [] ∨ d = ['-'] ∨ d = ['-', '-'])
    (hnm : nm.head? ≠ some '-') :
    (cutDash (d ++ nm)).2 = nm := by
  rcases hd with h | h | h <;> subst h
  · rcases nm with _ | ⟨c, cs⟩
    · rfl
    · have hc : c ≠ '-' := by simpa using hnm
      simp [cutDash, hc]
  · rcases nm with _ | ⟨c, cs⟩
    · rfl
    · have hc : c ≠ '-' := by simpa using hnm
      simp [cutDash, hc]
  · simp [cutDash]

theorem not_mem_of_contains_false {l : List Str} {x : Str} (h : l.contains x = false) :
    x ∉ l := by
  intro hmem
  have h2 := List.elem_iff.mpr hmem
  simp [List.contains, h2] at h
  exact h hmem

theorem flagValueBranch_normal_err (cmd : Cmd) (df p : Str) (w : List Str) (d : Nat) (e : Str)
    (h : flagValueBranch cmd df p = .normal w d (some e)) : w = [] ∧ d = 0 := by
  unfold flagValueBranch at h
  repeat' split at h
  all_goals simp_all

theorem namesAndArgsBranch_normal_err (cmd : Cmd) (used : List Str) (ca : Str) (cf1 : Bool)
    (w : List Str) (d : Nat) (e : Str)
    (h : namesAndArgsBranch cmd used ca cf1 = .normal w d (some e)) : w = [] ∧ d = 0 := by
  unfold namesAndArgsBranch at h
  repeat' split at h
  all_goals simp_all

theorem afterWalk_normal_err (cmd : Cmd) (used rest : List Str) (ca : Str) (cf0 : Bool)
    (w : List Str) (d : Nat) (e : Str)
    (h : afterWalk cmd used rest ca cf0 = .normal w d (some e)) : w = [] ∧ d = 0 := by
  simp only [afterWalk] at h
  split at h
  · exact flagValueBranch_normal_err _ _ _ _ _ _ h
  · exact namesAndArgsBranch_normal_err _ _ _ _ _ _ _ h

theorem set_last_eq_dropLast_append (x : Str) : ∀ (l : List Str), l ≠ [] →
    l.set (l.length - 1) x = l.dropLast ++ [x] := by
  intro l
  induction l with
  | nil => intro h; exact absurd rfl h
  | cons a as ih =>
    intro _
    cases as with
    | nil => rfl
    | cons b bs =>
      have h2 := ih (by simp)
      simp only [List.length_cons, Nat.add_sub_cancel] at h2 ⊢
      rw [List.set_cons_succ, h2, List.dropLast_cons₂]
      rfl

/-! Claim theorems. -/

/-- C1 counterexample: on the reference tree, completing the empty value of
the boolean flag `--root-bool=` yields only `true` and `false` — the first
matching spelling of each group — not the full prefix-filtered candidate
list `[true, TRUE, True, 1, false, FALSE, False, 0]` that the claim
requires for the empty partial value (every candidate has "" as prefix). -/
theorem c1_boolean_value_counterexample :
    complete progTree [("--root-bool=".toList)] = (["true".toList, "false".toList], 0, none) ∧
      ["true".toList, "false".toList] ≠
        ["true".toList, "TRUE".toList, "True".toList, ['1'],
          "false".toList, "FALSE".toList, "False".toList, ['0']] := by
  constructor
  · decide
  · decide

/-- C1 (amended): for every boolean flag without a registered completer,
when the final token is `-flag=p` or `--flag=p` and flag completion was not
disabled by a bare `--`, Complete returns the FIRST truthy spelling (in the
order true, TRUE, True, 1) having p as prefix, if any, followed by the
FIRST falsy spelling (in the order false, FALSE, False, 0) having p as
prefix, if any — at most one suggestion per group, truthy before falsy —
with no directive bits set and no error. -/
theorem c1_boolean_value_completion (root : Cmd) (args : List Str) (cmd : Cmd)
    (rest used : List Str) (df p : Str) (f : Flag)
    (h0 : args ≠ [])
    (hcf : ((args.getLastD []).isEmpty || ((args.getLastD []).head? == some '-')) = true)
    (hw : walk root (args.dropLast ++ [ddS]) = .ok (cmd, rest, used))
    (hnd : (rest.getLast? == some ddS) = false)
    (hcut : cutEq (args.getLastD []) = some (df, p))
    (hl : lookupFlag cmd.flags (cutDash df).2 = some f)
    (hcomp : f.comp = none) (hb : f.isBool = true) :
    complete root args =
      ((truthyVals.find? (fun v => p.isPrefixOf v)).toList ++
        (falsyVals.find? (fun v => p.isPrefixOf v)).toList, 0, none) := by
  have h1 := completeImpl_walk_ok root args cmd rest used h0 hw
  rw [hcf] at h1
  rw [afterWalk_eq_flagValue cmd used rest _ df p hnd hcut] at h1
  rw [flagValueBranch_boolFlag cmd df p f hl hcomp hb] at h1
  unfold complete
  rw [h1]
  simp only [boolWords, firstPrefixMatch_eq_find]

/-- C1 witness: completing `--root-bool=T` on the reference tree returns
exactly `TRUE` (the first truthy spelling with prefix T; no falsy spelling
matches). -/
theorem c1_boolean_value_completion_witness :
    complete progTree [("--root-bool=T".toList)] = ([("TRUE".toList)], 0, none) := by
  rw [c1_boolean_value_completion progTree [("--root-bool=T".toList)] progTree [] []
    ("--root-bool".toList) (['T']) fRootBool (by simp) rfl rfl rfl rfl rfl rfl rfl]
  decide

/-- C3: on the reference tree of §8, Complete with tokens `["--", "--root"]`
returns the empty suggestion list, directive zero and no error: the bare
`--` among the already-typed tokens disables flag completion for the final
token, and no subcommand name has `--root` as a prefix. -/
theorem c3_double_dash_disables_flags :
    complete progTree [ddS, ("--root".toList)] = ([], 0, none) := by
  decide

/-- C2 counterexample: on the reference tree with final token `-` (so
cd = "-" and cf = ""), the flag `root-bool` matches, yet it is suggested as
`--root-bool`, not with the single-dash prefix the claim requires for all
matching flags. -/
theorem c2_single_dash_counterexample :
    complete progTree [['-']] =
      (["--root-bool".toList, "--root-str".toList, "-v".toList], 0, none) ∧
      ¬ ("-root-bool".toList ∈ (complete progTree [['-']]).1) := by
  constructor
  · decide
  · decide

/-- C2 (amended): in flag-name completion with final token exactly `-`
(cd = "-", no partial name), every flag of the resolved node that is not
already set is suggested, but the dash prefix depends on name length:
one-character flags keep the single dash, longer flags are promoted to a
double-dash prefix. -/
theorem c2_single_dash_empty_name (flags : List Flag) (used : List Str) :
    flagNameWords flags used ['-'] =
      (sortFlags flags).filterMap (fun f =>
        if used.contains f.name then none
        else some ((if 1 < f.name.length then ['-', '-'] else ['-']) ++ f.name)) := by
  unfold flagNameWords
  apply List.filterMap_congr
  intro f _
  have hc : cutDash ['-'] = (['-'], ([] : Str)) := rfl
  rw [hc]
  simp

/-- C5 counterexample: a custom completer for flag `e` is registered on the
resolved node and the final token is `-e=a`, yet because a bare `--`
precedes it, Complete returns the empty list and directive zero instead of
the completer's words `[X]` — the claim omits the flag-completion-enabled
condition. -/
theorem c5_custom_completer_counterexample :
    complete ce5Tree [ddS, ("-e=a".toList)] = ([], 0, none) ∧
      (([], 0, none) : List Str × Nat × Option Str) ≠ ([("X".toList)], 0, none) := by
  constructor
  · decide
  · decide

/-- C5 (amended): when flag completion has not been disabled by a bare `--`
remaining among the already-typed tokens, the final token has the form
`-name=p` or `--name=p`, a custom completer is registered for flag `name`
on the resolved node, and that completer returns words and a directive
without error, Complete returns exactly those words and that directive,
with no flag-name, subcommand or positional contributions; this branch
takes precedence even when the flag is boolean (no boolean hypothesis is
needed). -/
theorem c5_custom_completer_passthrough (root : Cmd) (args : List Str) (cmd : Cmd)
    (rest used : List Str) (df p : Str) (f : Flag) (c : Str → CompRes)
    (w : List Str) (d : Nat)
    (h0 : args ≠ [])
    (hcf : ((args.getLastD []).isEmpty || ((args.getLastD []).head? == some '-')) = true)
    (hw : walk root (args.dropLast ++ [ddS]) = .ok (cmd, rest, used))
    (hnd : (rest.getLast? == some ddS) = false)
    (hcut : cutEq (args.getLastD []) = some (df, p))
    (hl : lookupFlag cmd.flags (cutDash df).2 = some f)
    (hcomp : f.comp = some c) (hres : c p = .ok w d) :
    complete root args = (w, d, none) := by
  have h1 := completeImpl_walk_ok root args cmd rest used h0 hw
  rw [hcf] at h1
  rw [afterWalk_eq_flagValue cmd used rest _ df p hnd hcut] at h1
  rw [flagValueBranch_customComp cmd df p f c w d hl hcomp hres] at h1
  unfold complete
  rw [h1]

/-- C5 witness: with final token `-e=a` (no preceding `--`), Complete on
the `ce5Tree` returns exactly the registered completer's result `([X], 0)`. -/
theorem c5_custom_completer_witness :
    complete ce5Tree [("-e=a".toList)] = ([("X".toList)], 0, none) :=
  c5_custom_completer_passthrough ce5Tree [("-e=a".toList)] ce5Tree [] []
    ("-e".toList) (['a']) eFlag xComp [("X".toList)] 0
    (by simp) rfl rfl rfl rfl rfl rfl rfl

/-- C10: when the final token has the form `-name=p` or `--name=p` with
flag completion enabled, but `name` is not a registered flag of the
resolved node (and the node has no argument completer registered), Complete
returns no error, the empty suggestion list, and directive zero. -/
theorem c10_unknown_flag_value_empty (root : Cmd) (args : List Str) (cmd : Cmd)
    (rest used : List Str) (df p : Str)
    (h0 : args ≠ [])
    (hcf : ((args.getLastD []).isEmpty || ((args.getLastD []).head? == some '-')) = true)
    (hw : walk root (args.dropLast ++ [ddS]) = .ok (cmd, rest, used))
    (hnd : (rest.getLast? == some ddS) = false)
    (hcut : cutEq (args.getLastD []) = some (df, p))
    (hl : lookupFlag cmd.flags (cutDash df).2 = none)
    (hac : cmd.argComp = none) :
    complete root args = ([], 0, none) := by
  have h1 := completeImpl_walk_ok root args cmd rest used h0 hw
  rw [hcf] at h1
  rw [afterWalk_eq_flagValue cmd used rest _ df p hnd hcut] at h1
  rw [flagValueBranch_noFlag cmd df p hl] at h1
  unfold complete
  rw [h1]

/-- C10 witness: completing `--nosuch=x` on the reference tree returns no
error, no suggestions, and directive zero. -/
theorem c10_unknown_flag_value_witness :
    complete progTree [("--nosuch=x".toList)] = ([], 0, none) :=
  c10_unknown_flag_value_empty progTree [("--nosuch=x".toList)] progTree [] []
    ("--nosuch".toList) (['x']) (by simp) rfl rfl rfl rfl rfl rfl

/-- C4: a flag that was already given a value by the already-typed
arguments (a member of the `used` set computed by replaying them, which is
what `Complete` feeds into its flag-name block) never appears among the
flag-name completion words: stripping the suggested dashes from any emitted
word never yields the name of a used flag.  The well-formedness hypothesis
mirrors the Go flag package, which rejects registering flag names that
begin with a dash. -/
theorem c4_used_flags_not_suggested (flags : List Flag) (used : List Str) (ca nm : Str)
    (hwf : ∀ f, f ∈ flags → f.name.head? ≠ some '-')
    (hused : nm ∈ used) :
    ∀ w, w ∈ flagNameWords flags used ca → (cutDash w).2 ≠ nm := by
  intro w hw
  simp only [flagNameWords, List.mem_filterMap] at hw
  obtain ⟨f, hf, heq⟩ := hw
  by_cases h1 : ((cutDash ca).2).isPrefixOf f.name
  · rw [if_pos h1] at heq
    by_cases h2 : used.contains f.name
    · rw [if_pos h2] at heq
      exact absurd heq (by simp)
    · rw [if_neg h2] at heq
      simp only [Option.some.injEq] at heq
      have hd : (if ((cutDash ca).1 = [] ∨ (cutDash ca).1 = ['-']) ∧ (cutDash ca).2 = [] ∧
          1 < f.name.length then (['-', '-'] : Str) else (cutDash ca).1) = [] ∨
          (if ((cutDash ca).1 = [] ∨ (cutDash ca).1 = ['-']) ∧ (cutDash ca).2 = [] ∧
          1 < f.name.length then (['-', '-'] : Str) else (cutDash ca).1) = ['-'] ∨
          (if ((cutDash ca).1 = [] ∨ (cutDash ca).1 = ['-']) ∧ (cutDash ca).2 = [] ∧
          1 < f.name.length then (['-', '-'] : Str) else (cutDash ca).1) = ['-', '-'] := by
        split
        · exact Or.inr (Or.inr rfl)
        · exact cutDash_fst_cases ca
      have hsnd : (cutDash w).2 = f.name := by
        rw [← heq]
        exact cutDash_snd_append _ _ hd (hwf f (mem_sortFlags hf))
      intro hco
      rw [hsnd] at hco
      exact not_mem_of_contains_false (by simpa using h2) (hco ▸ hused)
  · rw [if_neg h1] at heq
    exact absurd heq (by simp)

/-- C4 witness: with `root-str` already set and partial token `--r`, the
suggestion `--root-bool` (which is in the flag-name completion list of the
reference root) does not denote the used flag `root-str`. -/
theorem c4_used_flags_not_suggested_witness :
    (cutDash ("--root-bool".toList)).2 ≠ ("root-str".toList) :=
  c4_used_flags_not_suggested progTree.flags [("root-str".toList)] ("--r".toList)
    ("root-str".toList) (by decide) (by decide) ("--root-bool".toList) (by decide)

/-- C6 counterexample: when the argument completer registered on
`panicTree` panics, Complete returns a non-nil error TOGETHER WITH the
subcommand suggestion `sub` accumulated before the panic — a partial
suggestion list is returned alongside an error, contradicting the claim. -/
theorem c6_error_counterexample :
    complete panicTree [("s".toList)] =
      ([("sub".toList)], 0, some (panicMsg ("boom".toList))) ∧
      ¬ ((complete panicTree [("s".toList)]).1 = []) := by
  constructor
  · decide
  · decide

/-- C6 (amended): every explicit error return of the body of Complete —
flag-parse failure during the walk or a registered completer returning an
error — carries the empty suggestion list and directive zero; only an
error manufactured by the deferred recover from a panic is returned
alongside the words and directive accumulated before the panic. -/
theorem c6_explicit_errors_empty (root : Cmd) (args : List Str) (w : List Str) (d : Nat)
    (e : Str) (h : completeImpl root args = .normal w d (some e)) : w = [] ∧ d = 0 := by
  simp only [completeImpl] at h
  split at h
  · simp_all
  · exact afterWalk_normal_err _ _ _ _ _ _ _ _ h

/-- C6 witness: the erroring argument completer on `errTree` produces an
explicit error return, whose suggestion list is empty and directive zero. -/
theorem c6_explicit_errors_witness : ([] : List Str) = [] ∧ (0 : Nat) = 0 :=
  c6_explicit_errors_empty errTree [("x".toList)] [] 0 (compErrMsg ("bad".toList)) rfl

/-- C7: a panic raised while the body of Complete runs (here from a
registered completer) is caught by the deferred recover at the entry point
and converted into an error value: Complete returns normally, with the
panic message wrapped into the error component, never propagating the
panic itself. -/
theorem c7_panic_recovered (root : Cmd) (args : List Str) (w : List Str) (d : Nat) (m : Str)
    (h : completeImpl root args = .panicked w d m) :
    complete root args = (w, d, some (panicMsg m)) := by
  unfold complete
  rw [h]

/-- C7 witness: the panicking argument completer on `panicTree` unwinds to
the recover block and Complete returns an error value instead of a panic. -/
theorem c7_panic_recovered_witness :
    complete panicTree [("s".toList)] =
      ([("sub".toList)], 0, some (panicMsg ("boom".toList))) :=
  c7_panic_recovered panicTree [("s".toList)] [("sub".toList)] 0 ("boom".toList) rfl

/-- C8 counterexample: Complete overwrites the final element of the
caller's args array with `--` (complete.go line 150), so after a call with
args `["deb"]` the caller's array no longer holds its original contents. -/
theorem c8_args_mutation_counterexample :
    argsAfterComplete [("deb".toList)] ≠ [("deb".toList)] := by
  decide

/-- C8 (amended): besides lazy flag-set initialization, Complete's only
caller-visible side effect is this one write: for every non-empty args
vector, the caller's array afterwards consists of the original elements
with the final one replaced by `--`. -/
theorem c8_args_overwritten_last (args : List Str) (h : args ≠ []) :
    argsAfterComplete args = args.dropLast ++ [ddS] := by
  have hne : args.isEmpty = false := by
    cases args with
    | nil => exact absurd rfl h
    | cons a as => rfl
  simp only [argsAfterComplete, hne, Bool.false_eq_true, if_false]
  exact set_last_eq_dropLast_append ddS args h

/-- C8 witness: for the one-element vector `["deb"]` the array afterwards
is `["--"]`. -/
theorem c8_args_overwritten_last_witness :
    argsAfterComplete [("deb".toList)] = ([("deb".toList)]).dropLast ++ [ddS] :=
  c8_args_overwritten_last [("deb".toList)] (by simp)

/-- C9: Complete is deterministic — it is a pure function of the command
tree (with its attached completer registrations) and the argument vector,
so two calls on element-wise equal fresh argument vectors return identical
words, directive and error. -/
theorem c9_deterministic (root : Cmd) (a b : List Str) (h : a = b) :
    complete root a = complete root b := by
  rw [h]

/-- C9 witness: two calls with equal vectors `["deb"]` agree. -/
theorem c9_deterministic_witness :
    complete progTree [("deb".toList)] = complete progTree [("deb".toList)] :=
  c9_deterministic progTree [("deb".toList)] [("deb".toList)] rfl

end FFC
